import Mathlib

/-!
Verification of the versioned export/archival subsystem of
PollutionSolutionsLite (scripts/export_mod.py), as a shallow embedding.

Python strings are embedded as `List Char` (`Str`); a directory is a list
of the filenames it contains; JSON manifests are association lists from
keys to JSON values.  Every definition is translated from the source file
`scripts/export_mod.py` unless its doc comment says otherwise.
-/

/-- Embedding of a Python string: its list of characters. -/
abbrev Str : Type := List Char

/-- Coerce a Lean string literal to the `Str` embedding. -/
def str (s : String) : Str := s.toList

/-! ## Decimal rendering and parsing (Python `str`/`int` on the patch digits) -/

/-- The ASCII digit character for `n` (only used with `n < 10`; the final
catch-all arm is unreachable at every call site). -/
def pyDigitChar (n : Nat) : Char :=
  match n with
  | 0 => '0' | 1 => '1' | 2 => '2' | 3 => '3' | 4 => '4'
  | 5 => '5' | 6 => '6' | 7 => '7' | 8 => '8' | 9 => '9'
  | _ + 10 => '0'

/-- Is `c` an ASCII decimal digit? -/
def isDigitChar (c : Char) : Bool := 48 ≤ c.toNat && c.toNat ≤ 57

/-- Numeric value of an ASCII digit character. -/
def digitVal (c : Char) : Nat := c.toNat - 48

/-- Value of a string of ASCII digits, most significant first. -/
def digitsVal (s : Str) : Nat := s.foldl (fun a c => 10 * a + digitVal c) 0

/-- Little-endian decimal digits of `n`.  Fuel-based so that the kernel can
evaluate it; fuel `n + 1` always suffices (`digitsRevAux_fuel`). -/
def digitsRevAux : Nat → Nat → List Char
  | 0, _ => []
  | fuel + 1, n =>
    if n < 10 then [pyDigitChar n]
    else pyDigitChar (n % 10) :: digitsRevAux fuel (n / 10)

/-- Embedding of Python `str(n)` for a nonnegative integer `n`: its decimal
digit string. -/
def pyStr (n : Nat) : Str := (digitsRevAux (n + 1) n).reverse

/-- Embedding of Python `str(i)` for an arbitrary integer. -/
def intStr (i : Int) : Str :=
  if i < 0 then '-' :: pyStr (-i).toNat else pyStr i.toNat

/-- Python whitespace characters stripped by `str.strip()` (ASCII part). -/
def isPyWs (c : Char) : Bool :=
  c = ' ' || c = '\t' || c = '\n' || c = '\r' || c.toNat = 11 || c.toNat = 12

/-- Embedding of Python `str.strip()` (ASCII whitespace). -/
def stripWs (s : Str) : Str :=
  ((s.dropWhile isPyWs).reverse.dropWhile isPyWs).reverse

/-- After an initial digit, Python `int` accepts digits with single
underscores strictly between digits. -/
def digitsUnders : Str → Bool
  | [] => true
  | c :: rest =>
    if isDigitChar c then digitsUnders rest
    else if c = '_' then
      match rest with
      | [] => false
      | d :: r2 => isDigitChar d && digitsUnders r2
    else false

/-- Does `body` consist of digits with well-placed underscores? -/
def intBodyOk : Str → Bool
  | [] => false
  | c :: rest => isDigitChar c && digitsUnders rest

/-- Embedding of Python `int(s)` (base 10): `none` when `int` would raise
`ValueError`.  Strips ASCII whitespace, allows one sign, digits with
underscores between digits. -/
def pyInt? (s : Str) : Option Int :=
  let t := stripWs s
  match t with
  | [] => none
  | c :: rest =>
    let signed : Int × Str :=
      if c = '+' then (1, rest) else if c = '-' then (-1, rest) else (1, t)
    if intBodyOk signed.2 then
      some (signed.1 * (digitsVal (signed.2.filter (fun x => !(x = '_'))) : Int))
    else none

/-! ## The version allocator (`ModExporter.get_next_version`) -/

/-- The literal glob-pattern head `"PollutionSolutionsLite_1.1."` from
`pattern = f"{mod_name}_1.1.*.zip"` (source line 212). -/
def globPre : Str := str "PollutionSolutionsLite_1.1."

/-- The literal glob-pattern tail `".zip"`. -/
def globSuf : Str := str ".zip"

/-- The prefix `"PollutionSolutionsLite_"` removed on source line 224. -/
def modPfx : Str := str "PollutionSolutionsLite_"

/-- Embedding of `dest_dir.glob(f"{mod_name}_1.1.*.zip")` membership: a
filename matches iff it is `globPre ++ middle ++ globSuf` for some middle
(the pattern's `*` matches any characters of a filename, including dots,
because it does not stand at the start of the pattern component). -/
def globMatch (f : Str) : Bool :=
  decide (globPre <+: f ∧ globSuf <:+ f.drop globPre.length)

/-- Embedding of `Path.stem`: the filename cut at its last dot, unless the
only dot is the leading character (then the name is returned whole). -/
def pyStem (f : Str) : Str :=
  match f.reverse.findIdx? (fun c => c = '.') with
  | none => f
  | some j => if f.length - 1 - j = 0 then f else f.take (f.length - 1 - j)

/-- Fuel-based form of Python `str.replace(pat, rep)` (all occurrences,
leftmost first); fuel `s.length` always suffices. -/
def replaceAllAux (pat rep : Str) : Nat → Str → Str
  | 0, s => s
  | fuel + 1, s =>
    match s with
    | [] => []
    | c :: cs =>
      if pat <+: (c :: cs) ∧ pat ≠ [] then
        rep ++ replaceAllAux pat rep fuel ((c :: cs).drop pat.length)
      else c :: replaceAllAux pat rep fuel cs

/-- Embedding of Python `s.replace(pat, rep)` for a nonempty pattern. -/
def replaceAll (pat rep s : Str) : Str := replaceAllAux pat rep s.length s

/-- Embedding of Python `s.split(sep)` for a one-character separator:
splitting an empty string yields one empty piece, exactly as in Python. -/
def splitOnChar (c : Char) : Str → List Str
  | [] => [[]]
  | a :: rest =>
    let r := splitOnChar c rest
    if a = c then [] :: r
    else
      match r with
      | [] => [[a]]
      | h :: t => (a :: h) :: t

/-- Patch number extracted from one matched zip filename (source lines
223-233): take the stem, strip the `mod_name + "_"` prefix, split on dots;
if exactly 3 components, Python-`int`-parse the third; any failure skips
the file (`None`). -/
def filePatch? (f : Str) : Option Int :=
  let versionPart := replaceAll modPfx [] (pyStem f)
  match splitOnChar '.' versionPart with
  | [_, _, p] => pyInt? p
  | _ => none

/-- Embedding of `ModExporter.get_next_version` (source lines 209-235).
The directory is given as the list of its filenames. -/
def get_next_version (files : List Str) : Str :=
  let existing := files.filter globMatch
  if existing.isEmpty then str "1.1.1"
  else
    let maxPatch := existing.foldl
      (fun m f => match filePatch? f with
        | some p => max m p
        | none => m) (0 : Int)
    (str "1.1.") ++ intStr (maxPatch + 1)

/-- The version string `"1.1.<m>"` with an unpadded decimal patch. -/
def mkVersion (m : Nat) : Str := (str "1.1.") ++ pyStr m

/-- The archive filename `f"{mod_name}_{version}.zip"` (source line 284). -/
def mkZipName (v : Str) : Str := modPfx ++ v ++ globSuf

/-- `N` rounds of the invariant scenario of the spec: call the allocator,
then create (append to the directory) the returned archive's filename. -/
def runAlloc (files : List Str) : Nat → List Str
  | 0 => []
  | n + 1 =>
    let v := get_next_version files
    v :: runAlloc (files ++ [mkZipName v]) n

/-- The running maximum the allocator's loop computes. -/
def maxPatchFold (files : List Str) : Int :=
  (files.filter globMatch).foldl
    (fun m f => match filePatch? f with
      | some p => max m p
      | none => m) 0

/-- The patch numbers the spec says the allocator scans: those of matching
filenames whose version part has three dot components with an integer
third component. -/
def allocPatches (files : List Str) : List Int :=
  (files.filter globMatch).filterMap filePatch?

/-- The filenames generated by the first `k` rounds of the invariant
scenario: archives for versions `1.1.1`, ..., `1.1.k`. -/
def genFiles (k : Nat) : List Str :=
  (List.range k).map (fun i => mkZipName (mkVersion (i + 1)))

/-- A directory holding archives with patch numbers 1, 3 and 5. -/
def gapDir : List Str :=
  [ str "PollutionSolutionsLite_1.1.1.zip",
    str "PollutionSolutionsLite_1.1.3.zip",
    str "PollutionSolutionsLite_1.1.5.zip" ]

/-- A directory holding one archive whose patch component parses (by
Python `int`) to the negative number `-5`. -/
def negPatchDir : List Str := [ str "PollutionSolutionsLite_1.1.-5.zip"]

/-- The directory contents of `test_ignores_old_format_versions`
(tests/test_export_versioning.py lines 157-168). -/
def oldFormatDir : List Str :=
  [ str "PollutionSolutionsLite_1.0.0.zip",
    str "PollutionSolutionsLite_1.1.5.zip",
    str "PollutionSolutionsLite_1.1.99.zip",
    str "PollutionSolutionsLite_1.1.0003.zip" ]

/-! ## The manifest version store (`ModExporter.update_info_version`) -/

/-- A JSON value, as produced by `json.load` (numbers are modelled as
integers; the update under verification treats every non-`version` value
as an opaque payload, so the number representation is immaterial). -/
inductive JVal where
  | jnull : JVal
  | jbool : Bool → JVal
  | jnum : Int → JVal
  | jstr : String → JVal
  | jarr : List JVal → JVal
  | jobj : List (String × JVal) → JVal

/-- A parsed JSON object: its top-level fields in document order, with the
unique keys `json.load` guarantees. -/
abbrev JDoc : Type := List (String × JVal)

/-- The value of top-level key `k` when the document is read back. -/
def lookupKey (k : String) : JDoc → Option JVal
  | [] => none
  | p :: ps => if p.1 = k then some p.2 else lookupKey k ps

/-- Embedding of the Python dict assignment `info[k] = v` followed by
`json.dump`: an existing key keeps its position and gets the new value, a
missing key is appended at the end. -/
def dictSet (doc : JDoc) (k : String) (v : JVal) : JDoc :=
  if doc.any (fun p => decide (p.1 = k)) then
    doc.map (fun p => if p.1 = k then (k, v) else p)
  else doc ++ [(k, v)]

/-- Embedding of `ModExporter.update_info_version` (source lines 237-254)
on a manifest whose JSON document parsed: set the `version` key, write the
document back, return `True`.  (The Python function returns `False` only
when reading, parsing or writing raises; the pure core embedded here is
the branch the claim conditions on.) -/
def update_info_version (doc : JDoc) (version : String) : JDoc × Bool :=
  (dictSet doc "version" (JVal.jstr version), true)

/-- The test manifest of tests/test_export_versioning.py (lines 46-55),
restricted to its string fields. -/
def sampleManifest : JDoc :=
  [ ("name", JVal.jstr "PollutionSolutionsLite"),
    ("version", JVal.jstr "1.1.0001"),
    ("factorio_version", JVal.jstr "2.0"),
    ("title", JVal.jstr "Pollution Solutions Lite"),
    ("author", JVal.jstr "Test") ]

/-! ## The tree filter (`ModExporter.should_exclude`) -/

/-- The configured exclude patterns (source lines 42-65). -/
def excludePatterns : List Str :=
  [ str ".git", str ".gitignore", str ".github", str "scripts",
    str "docs", str "tests", str "run_tests.lua", str "factorio",
    str "__pycache__", str "*.pyc", str ".vscode", str ".idea",
    str ".venv", str "venv", str ".editorconfig", str ".luarc.json",
    str ".markdownlintignore", str ".stylua.toml",
    str "PROJECT_STRUCTURE.md", str "validate_config.sh",
    str "*.zip", str "*.tar.gz" ]

/-- Embedding of `str(relative)` for a relative path given by its
components: the components joined with `/`. -/
def joinPath (rel : List Str) : Str := List.intercalate [('/' : Char)] rel

/-- Embedding of `path.name`: the final path component. -/
def pathName (rel : List Str) : Str := rel.getLastD []

/-- Embedding of the loop body of `ModExporter.should_exclude` (source
lines 149-161), acting on the already-computed relative path: first
pattern match wins, `false` when no pattern matches. -/
def should_exclude (rel : List Str) : List Str → Bool
  | [] => false
  | pattern :: rest =>
    if pattern.head? = some ('*' : Char) then
      if (pattern.drop 1) <:+ pathName rel then true
      else should_exclude rel rest
    else
      if pattern <+: joinPath rel ∨ pathName rel = pattern then true
      else should_exclude rel rest

/-- The per-pattern match rule exactly as the claim words it: a pattern
starting with `*` matches iff the path's final component ends with the
pattern's remainder; any other pattern matches iff the stringified
relative path starts with the pattern or the final component equals it. -/
def ClaimMatch (pattern : Str) (rel : List Str) : Prop :=
  if pattern.head? = some ('*' : Char) then (pattern.drop 1) <:+ pathName rel
  else (pattern <+: joinPath rel ∨ pathName rel = pattern)

/-- The message of the `ValueError` that `Path.relative_to` raises. -/
def subpathMsg : String := "ValueError: path is not in the subpath of base"

/-- Embedding of `path.relative_to(base_path)` on component lists: the
components after `base`, or the `ValueError` when `base` is not a prefix
of `path`. -/
def relative_to (path base : List Str) : Except String (List Str) :=
  if base <+: path then Except.ok (path.drop base.length)
  else Except.error subpathMsg

/-- Embedding of the full `ModExporter.should_exclude` including the
relative-path computation on its first line (source line 151), which runs
before any pattern is examined. -/
def should_exclude_checked (path base : List Str) (patterns : List Str) :
    Except String Bool :=
  match relative_to path base with
  | Except.error e => Except.error e
  | Except.ok rel => Except.ok (should_exclude rel patterns)

/-! ## The two copy strategies (`ModExporter.copy_tree`) -/

/-- The file set the fallback strategy materializes (source lines 184-197):
every file of the source tree, given by its relative component path, for
which `should_exclude` answers `false`.  (Each file is copied byte- and
metadata-identically by `shutil.copy2`, so the produced tree is determined
by this path set.) -/
def fallbackCopied (files : List (List Str)) (patterns : List Str) :
    List (List Str) :=
  files.filter (fun rel => !(should_exclude rel patterns))

/-- Modelled from the spec: the external bulk-copy tool (rsync) is not
part of this repository; §4.2 only says each exclude pattern is translated
to the tool's native exclude flag (source lines 170-175 pass `--exclude
PATTERN`).  Per that tool's documented filter rules for the pattern shapes
the exporter uses, a slash-free pattern is matched against the basename of
every traversed path, a leading `*` matches a basename suffix, and an
excluded directory is pruned with everything below it. -/
def rsyncBaseMatch (pattern name : Str) : Bool :=
  if pattern.head? = some ('*' : Char) then
    decide ((pattern.drop 1) <:+ name)
  else decide (name = pattern)

/-- Modelled from the spec: a path is excluded by the bulk strategy iff
some pattern matches the basename of the path itself or of one of its
ancestor directories (pruned traversal). -/
def rsyncExcluded (rel : List Str) (patterns : List Str) : Bool :=
  rel.inits.any (fun pre =>
    !pre.isEmpty && patterns.any (fun p => rsyncBaseMatch p (pathName pre)))

/-- Modelled from the spec: the file set the bulk strategy materializes. -/
def rsyncCopied (files : List (List Str)) (patterns : List Str) :
    List (List Str) :=
  files.filter (fun rel => !(rsyncExcluded rel patterns))

/-- A source tree holding one file `a/tests/f.lua`, on which the two copy
strategies disagree under the configured exclude patterns. -/
def nestedTree : List (List Str) := [[ str "a", str "tests", str "f.lua"]]

/-! ## The orchestrator (`ModExporter.export`, `create_archive`, `main`) -/

/-- The filesystem mutations the export pipeline can perform. -/
inductive Act where
  | rmtreeExisting : Act
  | copyTree : Act
  | updSrcManifest : Act
  | updExpManifest : Act
  | zipWrite : Act
  deriving DecidableEq

/-- Outcomes of the environment-dependent steps of one export invocation:
whether a destination resolved and exists, whether the source exists,
whether the previous exported tree is present, whether the copy raises,
whether verification finds the manifest, and whether each manifest update
and the archive write succeed. -/
structure Env where
  destResolved : Bool
  destExists : Bool
  srcExists : Bool
  modDestPreexists : Bool
  copyOk : Bool
  verifyOk : Bool
  updSrcOk : Bool
  updExpOk : Bool
  zipOk : Bool

/-- Effect of `update_info_version` on the source-tree manifest: the
attempt is recorded, the result reports success; the Python function
catches every exception internally (source lines 237-254), so it never
prevents its caller from continuing. -/
def update_info_version_eff (e : Env) : List Act × Bool :=
  ([Act.updSrcManifest], e.updSrcOk)

/-- Effect of `update_exported_info_version` on the exported-tree manifest
(source lines 256-271); also exception-free toward the caller. -/
def update_exported_info_version_eff (e : Env) : List Act × Bool :=
  ([Act.updExpManifest], e.updExpOk)

/-- Effect of the zip-writing block of `create_archive` (source lines
288-299): attempt recorded, success reported, exceptions caught. -/
def zip_write_eff (e : Env) : List Act × Bool :=
  ([Act.zipWrite], e.zipOk)

/-- Embedding of `ModExporter.create_archive` (source lines 273-299): the
two manifest updates and the archive write happen unconditionally in
sequence (both update results are discarded), and the archive write's
success is returned. -/
def create_archive (e : Env) : List Act × Bool :=
  let u1 := update_info_version_eff e
  let u2 := update_exported_info_version_eff e
  let z := zip_write_eff e
  (u1.1 ++ u2.1 ++ z.1, z.2)

/-- Embedding of `ModExporter.export` (source lines 301-365) as a trace of
mutations plus the returned success flag, following the source's branch
order: unresolved destination, missing destination, missing source,
optional removal of the previous tree, copy, verification, archiving
(result discarded), success. -/
def export_mod (e : Env) : List Act × Bool :=
  if !e.destResolved then ([], false)
  else if !e.destExists then ([], false)
  else if !e.srcExists then ([], false)
  else
    let pre : List Act := if e.modDestPreexists then [Act.rmtreeExisting] else []
    if !e.copyOk then (pre ++ [Act.copyTree], false)
    else if e.verifyOk then (pre ++ [Act.copyTree] ++ (create_archive e).1, true)
    else (pre ++ [Act.copyTree], false)

/-- Embedding of `main` (source lines 368-375): exit code 0 on success,
1 on failure. -/
def main_exit (e : Env) : Nat := if (export_mod e).2 then 0 else 1

/-- An environment where everything up to verification succeeds but both
manifest updates and the archive write fail. -/
def envArchiveFails : Env := ⟨true, true, true, true, true, true, false, false, false⟩

/-- An environment whose resolved destination directory does not exist. -/
def envNoDest : Env := ⟨true, false, true, true, true, true, true, true, true⟩

/-! ## Theorems -/

/-- Claim C3's code_bug record: the allocator on an empty directory and on
a directory whose highest valid archive has patch 3. -/
theorem c3_unpadded_seed :
    get_next_version [] = str "1.1.1"
    ∧ get_next_version [ str "PollutionSolutionsLite_1.1.0003.zip"] = str "1.1.4"
    ∧ str "1.1.1" ≠ str "1.1.0001"
    ∧ str "1.1.4" ≠ str "1.1.0004" := by
  refine ⟨rfl, by decide, by decide, by decide⟩

/-- Claim C4's code_bug record: on the test-suite directory that mixes
old-format and new-format archive names, the code counts the unpadded
legacy patches (5 and 99) and answers `"1.1.100"`, not the `"1.1.0004"`
the test `test_ignores_old_format_versions` asserts. -/
theorem c4_legacy_counted :
    get_next_version oldFormatDir = str "1.1.100"
    ∧ str "1.1.100" ≠ str "1.1.0004" := by
  refine ⟨by decide, by decide⟩

/-- Fuel irrelevance for decimal rendering: any fuel above the argument
gives the same digits. -/
theorem digitsRevAux_fuel : ∀ (n f₁ f₂ : Nat), n < f₁ → n < f₂ →
    digitsRevAux f₁ n = digitsRevAux f₂ n := by
  intro n
  induction n using Nat.strong_induction_on with
  | _ n ih =>
    intro f₁ f₂ h₁ h₂
    cases f₁ with
    | zero => omega
    | succ f₁ =>
      cases f₂ with
      | zero => omega
      | succ f₂ =>
        simp only [digitsRevAux]
        by_cases h : n < 10
        · simp [h]
        · simp only [if_neg h]
          have hdiv : n / 10 < n := Nat.div_lt_self (by omega) (by omega)
          rw [ih (n / 10) hdiv f₁ f₂ (by omega) (by omega)]

/-- Digit characters for arguments below ten. -/
theorem pyDigitChar_isDigit (n : Nat) (h : n < 10) :
    isDigitChar (pyDigitChar n) = true := by
  interval_cases n <;> decide

/-- The digit character of `n < 10` has value `n`. -/
theorem digitVal_pyDigitChar (n : Nat) (h : n < 10) :
    digitVal (pyDigitChar n) = n := by
  interval_cases n <;> decide

/-- Every character the renderer emits is a decimal digit. -/
theorem digitsRevAux_digits : ∀ (n fuel : Nat), n < fuel →
    ∀ c ∈ digitsRevAux fuel n, isDigitChar c = true := by
  intro n
  induction n using Nat.strong_induction_on with
  | _ n ih =>
    intro fuel hf c hc
    cases fuel with
    | zero => omega
    | succ fuel =>
      simp only [digitsRevAux] at hc
      by_cases h : n < 10
      · rw [if_pos h] at hc
        simp only [List.mem_singleton] at hc
        exact hc ▸ pyDigitChar_isDigit n h
      · rw [if_neg h] at hc
        rcases List.mem_cons.1 hc with h1 | h1
        · exact h1 ▸ pyDigitChar_isDigit (n % 10) (Nat.mod_lt n (by omega))
        · have hdiv : n / 10 < n := Nat.div_lt_self (by omega) (by omega)
          exact ih (n / 10) hdiv fuel (by omega) c h1

/-- The rendered decimal string consists of digits. -/
theorem pyStr_digits (n : Nat) : ∀ c ∈ pyStr n, isDigitChar c = true := by
  intro c hc
  exact digitsRevAux_digits n (n + 1) (by omega) c (List.mem_reverse.1 hc)

/-- The rendered decimal string is never empty. -/
theorem pyStr_ne_nil (n : Nat) : pyStr n ≠ [] := by
  unfold pyStr digitsRevAux
  by_cases h : n < 10 <;> simp [h]

/-- Appending one digit multiplies the value by ten and adds it. -/
theorem digitsVal_concat (l : Str) (c : Char) :
    digitsVal (l ++ [c]) = 10 * digitsVal l + digitVal c := by
  simp [digitsVal, List.foldl_append]

/-- Decimal rendering round-trips through digit evaluation. -/
theorem digitsVal_pyStr (n : Nat) : digitsVal (pyStr n) = n := by
  induction n using Nat.strong_induction_on with
  | _ n ih =>
    by_cases h : n < 10
    · unfold pyStr digitsRevAux
      rw [if_pos h]
      simp [digitsVal, digitVal_pyDigitChar n h]
    · unfold pyStr digitsRevAux
      rw [if_neg h]
      have hdiv : n / 10 < n := Nat.div_lt_self (by omega) (by omega)
      have hfuel : digitsRevAux n (n / 10) = digitsRevAux (n / 10 + 1) (n / 10) :=
        digitsRevAux_fuel (n / 10) n (n / 10 + 1) (by omega) (by omega)
      rw [hfuel, List.reverse_cons, digitsVal_concat]
      have : digitsVal (digitsRevAux (n / 10 + 1) (n / 10)).reverse = n / 10 := ih (n / 10) hdiv
      rw [this, digitVal_pyDigitChar (n % 10) (Nat.mod_lt n (by omega))]
      omega

/-- A digit character is not Python whitespace. -/
theorem isDigitChar_not_ws (c : Char) (h : isDigitChar c = true) :
    isPyWs c = false := by
  simp only [isDigitChar, Bool.and_eq_true, decide_eq_true_eq] at h
  simp only [isPyWs, Bool.or_eq_false_iff, decide_eq_false_iff_not]
  refine ⟨⟨⟨⟨⟨?_, ?_⟩, ?_⟩, ?_⟩, ?_⟩, ?_⟩ <;> intro hc
  · rw [hc] at h; simp at h
  · rw [hc] at h; simp at h
  · rw [hc] at h; simp at h
  · rw [hc] at h; simp at h
  · omega
  · omega

/-- Dropping leading whitespace does nothing on a whitespace-free string. -/
theorem dropWhile_ws_eq_self (s : Str) (h : ∀ c ∈ s, isPyWs c = false) :
    s.dropWhile isPyWs = s := by
  cases s with
  | nil => rfl
  | cons c cs =>
    rw [List.dropWhile_cons, if_neg]
    rw [h c (List.mem_cons_self c cs)]
    simp

/-- Stripping does nothing on a whitespace-free string. -/
theorem stripWs_eq_self (s : Str) (h : ∀ c ∈ s, isPyWs c = false) :
    stripWs s = s := by
  unfold stripWs
  rw [dropWhile_ws_eq_self s h,
      dropWhile_ws_eq_self s.reverse (fun c hc => h c (List.mem_reverse.1 hc)),
      List.reverse_reverse]

/-- A string of digits passes the digits-and-underscores check. -/
theorem digitsUnders_all (s : Str) (h : ∀ c ∈ s, isDigitChar c = true) :
    digitsUnders s = true := by
  induction s with
  | nil => rfl
  | cons c cs ih =>
    unfold digitsUnders
    rw [if_pos (h c (List.mem_cons_self c cs))]
    exact ih (fun x hx => h x (List.mem_cons_of_mem c hx))

/-- Python `int` on a nonempty all-digit string yields its decimal value. -/
theorem pyInt?_digits (s : Str) (hne : s ≠ []) (hd : ∀ c ∈ s, isDigitChar c = true) :
    pyInt? s = some (Int.ofNat (digitsVal s)) := by
  have hstrip : stripWs s = s :=
    stripWs_eq_self s (fun c hc => isDigitChar_not_ws c (hd c hc))
  unfold pyInt?
  rw [hstrip]
  cases s with
  | nil => exact absurd rfl hne
  | cons c cs =>
    have hc : isDigitChar c = true := hd c (List.mem_cons_self c cs)
    have hcn : 48 ≤ c.toNat ∧ c.toNat ≤ 57 := by
      simpa [isDigitChar] using hc
    have hplus : ¬ (c = '+') := by
      intro h; rw [h] at hcn; simp at hcn
    have hminus : ¬ (c = '-') := by
      intro h; rw [h] at hcn; simp at hcn
    simp only [if_neg hplus, if_neg hminus]
    have hbody : intBodyOk (c :: cs) = true := by
      show (isDigitChar c && digitsUnders cs) = true
      rw [hc, digitsUnders_all cs (fun x hx => hd x (List.mem_cons_of_mem c hx))]
      rfl
    rw [hbody]
    simp only [if_pos rfl]
    have hfil : (c :: cs).filter (fun x => !(x = '_')) = c :: cs := by
      rw [List.filter_eq_self]
      intro a ha
      have := hd a ha
      simp only [isDigitChar, Bool.and_eq_true, decide_eq_true_eq] at this
      simp only [Bool.not_eq_true', decide_eq_false_iff_not]
      intro h
      rw [h] at this
      simp at this
    simp [hfil]

/-- `str.replace` leaves a string alone when the pattern's first character
never occurs in it. -/
theorem replaceAllAux_no_occur (pat rep : Str) (hc : Char)
    (hpat : pat.head? = some hc) :
    ∀ (fuel : Nat) (s : Str), (∀ c ∈ s, c ≠ hc) →
      replaceAllAux pat rep fuel s = s := by
  intro fuel
  induction fuel with
  | zero => intro s _; rfl
  | succ fuel ih =>
    intro s h
    cases s with
    | nil => rfl
    | cons c cs =>
      have hne : ¬ (pat <+: (c :: cs) ∧ pat ≠ []) := by
        rintro ⟨hpre, _⟩
        cases pat with
        | nil => simp at hpat
        | cons p pt =>
          have hp : p = hc := by simpa using hpat
          have hcp : p = c := (List.cons_prefix_cons.1 hpre).1
          exact h c (List.mem_cons_self c cs) (by rw [← hcp, hp])
      show (if pat <+: (c :: cs) ∧ pat ≠ [] then
          rep ++ replaceAllAux pat rep fuel ((c :: cs).drop pat.length)
        else c :: replaceAllAux pat rep fuel cs) = c :: cs
      rw [if_neg hne, ih cs (fun x hx => h x (List.mem_cons_of_mem c hx))]

/-- `str.replace` strips a leading occurrence of the pattern when the
pattern's first character does not occur in the remainder. -/
theorem replaceAllAux_strip (pat rep rest : Str) (hc : Char)
    (hpat : pat.head? = some hc) (h : ∀ c ∈ rest, c ≠ hc) (fuel : Nat) :
    replaceAllAux pat rep (fuel + 1) (pat ++ rest) = rep ++ rest := by
  cases pat with
  | nil => simp at hpat
  | cons p pt =>
    show (if (p :: pt) <+: (p :: (pt ++ rest)) ∧ (p :: pt) ≠ [] then
        rep ++ replaceAllAux (p :: pt) rep fuel ((p :: (pt ++ rest)).drop (p :: pt).length)
      else p :: replaceAllAux (p :: pt) rep fuel (pt ++ rest)) = rep ++ rest
    rw [if_pos ⟨List.prefix_append (p :: pt) rest, by simp⟩]
    have hdrop : (p :: (pt ++ rest)).drop (p :: pt).length = rest :=
      List.drop_left (p :: pt) rest
    rw [hdrop, replaceAllAux_no_occur (p :: pt) rep hc hpat fuel rest h]

/-- Stripping the `mod_name + "_"` prefix from `mod_name + "_" + rest`
yields `rest` whenever `rest` has no capital `P`. -/
theorem replaceAll_strip (rest : Str) (h : ∀ c ∈ rest, c ≠ 'P') :
    replaceAll modPfx [] (modPfx ++ rest) = rest := by
  have hlen : (modPfx ++ rest).length = (22 + rest.length) + 1 := by
    rw [List.length_append]
    have h23 : modPfx.length = 23 := rfl
    omega
  show replaceAllAux modPfx [] ((modPfx ++ rest).length) (modPfx ++ rest) = rest
  rw [hlen]
  have := replaceAllAux_strip modPfx [] rest 'P' rfl h (22 + rest.length)
  simpa using this

/-- `Path.stem` of `g + ".zip"` is `g` for nonempty `g`. -/
theorem pyStem_zip (g : Str) (hg : g ≠ []) : pyStem (g ++ globSuf) = g := by
  have h1 : (g ++ globSuf).reverse = 'p' :: 'i' :: 'z' :: '.' :: g.reverse := by
    rw [List.reverse_append]; rfl
  have hfind : (g ++ globSuf).reverse.findIdx? (fun c => c = '.') = some 3 := by
    rw [h1]
    rw [List.findIdx?_cons, if_neg (by decide)]
    rw [List.findIdx?_cons, if_neg (by decide)]
    rw [List.findIdx?_cons, if_neg (by decide)]
    rw [List.findIdx?_cons, if_pos (by decide)]
  unfold pyStem
  rw [hfind]
  show (if (g ++ globSuf).length - 1 - 3 = 0 then g ++ globSuf
    else (g ++ globSuf).take ((g ++ globSuf).length - 1 - 3)) = g
  have hlen : (g ++ globSuf).length - 1 - 3 = g.length := by
    rw [List.length_append]
    have h4 : globSuf.length = 4 := rfl
    omega
  rw [hlen, if_neg (fun hz => hg (List.length_eq_zero.mp hz))]
  exact List.take_left g globSuf

/-- Splitting never yields an empty piece list. -/
theorem splitOnChar_ne_nil (c : Char) (s : Str) : splitOnChar c s ≠ [] := by
  induction s with
  | nil => simp [splitOnChar]
  | cons a rest ih =>
    unfold splitOnChar
    by_cases h : a = c
    · simp [h]
    · simp only [if_neg h]
      cases hr : splitOnChar c rest with
      | nil => simp
      | cons hh tt => simp

/-- Splitting a separator-free string yields the one whole piece. -/
theorem splitOnChar_no_sep (c : Char) (s : Str) (h : c ∉ s) :
    splitOnChar c s = [s] := by
  induction s with
  | nil => rfl
  | cons a rest ih =>
    unfold splitOnChar
    have ha : ¬ (a = c) := fun hh => h (hh ▸ List.mem_cons_self a rest)
    rw [if_neg ha, ih (fun hm => h (List.mem_cons_of_mem a hm))]

/-- Splitting `"1.1." ++ d` on dots for dot-free `d`. -/
theorem splitOnChar_version (d : Str) (hd : ('.' : Char) ∉ d) :
    splitOnChar '.' ((str "1.1.") ++ d) = [['1'], ['1'], d] := by
  have h1 : (str "1.1.") ++ d = '1' :: '.' :: '1' :: '.' :: d := rfl
  rw [h1]
  unfold splitOnChar
  rw [if_neg (by decide)]
  unfold splitOnChar
  rw [if_pos rfl]
  unfold splitOnChar
  rw [if_neg (by decide)]
  unfold splitOnChar
  rw [if_pos rfl]
  rw [splitOnChar_no_sep '.' d hd]

/-- The characters of a generated version string `"1.1.<digits>"` never
include a capital `P`. -/
theorem mkVersion_no_P (m : Nat) : ∀ c ∈ mkVersion m, c ≠ 'P' := by
  intro c hc
  rcases List.mem_append.1 hc with h | h
  · fin_cases h <;> decide
  · have hd := pyStr_digits m c h
    intro hP
    rw [hP] at hd
    simp [isDigitChar] at hd

/-- The digits of a generated version's patch contain no dot. -/
theorem pyStr_no_dot (m : Nat) : ('.' : Char) ∉ pyStr m := by
  intro h
  have hd := pyStr_digits m '.' h
  simp [isDigitChar] at hd

/-- The generated archive name regrouped around the glob pattern. -/
theorem mkZipName_eq (m : Nat) :
    mkZipName (mkVersion m) = globPre ++ (pyStr m ++ globSuf) := by
  show (modPfx ++ ((str "1.1.") ++ pyStr m)) ++ globSuf = globPre ++ (pyStr m ++ globSuf)
  rw [← List.append_assoc modPfx]
  have hpre : modPfx ++ (str "1.1.") = globPre := rfl
  rw [hpre, List.append_assoc]

/-- Generated archive names match the allocator's glob. -/
theorem globMatch_mkZip (m : Nat) : globMatch (mkZipName (mkVersion m)) = true := by
  simp only [globMatch, decide_eq_true_eq]
  rw [mkZipName_eq]
  refine ⟨List.prefix_append globPre _, ?_⟩
  rw [List.drop_left globPre]
  exact List.suffix_append (pyStr m) globSuf

/-- The allocator's per-file parse recovers the patch number of a
generated archive name. -/
theorem filePatch?_mkZip (m : Nat) :
    filePatch? (mkZipName (mkVersion m)) = some (Int.ofNat m) := by
  have hne : modPfx ++ mkVersion m ≠ [] := by
    intro h
    have := congrArg List.length h
    rw [List.length_append] at this
    simp only [List.length_nil] at this
    have h23 : modPfx.length = 23 := rfl
    omega
  have hstem : pyStem (mkZipName (mkVersion m)) = modPfx ++ mkVersion m := by
    show pyStem ((modPfx ++ mkVersion m) ++ globSuf) = modPfx ++ mkVersion m
    exact pyStem_zip (modPfx ++ mkVersion m) hne
  unfold filePatch?
  rw [hstem, replaceAll_strip (mkVersion m) (mkVersion_no_P m)]
  show (match splitOnChar '.' ((str "1.1.") ++ pyStr m) with
    | [_, _, p] => pyInt? p
    | _ => none) = some (Int.ofNat m)
  rw [splitOnChar_version (pyStr m) (pyStr_no_dot m)]
  show pyInt? (pyStr m) = some (Int.ofNat m)
  rw [pyInt?_digits (pyStr m) (pyStr_ne_nil m) (pyStr_digits m), digitsVal_pyStr]

/-- The allocator always answers `"1.1." ++ str(max + 1)` where `max` is
its running maximum (both source branches produce this shape). -/
theorem get_next_version_eq (files : List Str) :
    get_next_version files = (str "1.1.") ++ intStr (maxPatchFold files + 1) := by
  unfold get_next_version maxPatchFold
  by_cases h : (files.filter globMatch).isEmpty
  · rw [if_pos h]
    rw [List.isEmpty_iff] at h
    rw [h]
    rfl
  · rw [if_neg h]

/-- Rendering a natural successor as an integer gives its digit string. -/
theorem intStr_natSucc (k : Nat) : intStr ((k : Int) + 1) = pyStr (k + 1) := by
  unfold intStr
  rw [if_neg (by omega)]
  norm_num

/-- The loop's running maximum equals a fold of `max` over the parsed
patch list the spec describes. -/
theorem foldl_match_eq_filterMap (l : List Str) :
    ∀ a : Int,
      l.foldl (fun m f => match filePatch? f with
        | some p => max m p
        | none => m) a = (l.filterMap filePatch?).foldl max a := by
  induction l with
  | nil => intro a; rfl
  | cons x xs ih =>
    intro a
    cases hx : filePatch? x with
    | none => simp [List.foldl_cons, List.filterMap_cons, hx, ih]
    | some p => simp [List.foldl_cons, List.filterMap_cons, hx, ih]

/-- One more round appends one more generated archive name. -/
theorem genFiles_succ (k : Nat) :
    genFiles (k + 1) = genFiles k ++ [mkZipName (mkVersion (k + 1))] := by
  unfold genFiles
  rw [List.range_succ, List.map_append]
  rfl

/-- Folding the allocator's loop body over the generated archive names of
rounds 1..k yields k. -/
theorem foldl_gen_max (k : Nat) :
    (List.range k).foldl (fun (m : Int) (i : Nat) =>
      match filePatch? (mkZipName (mkVersion (i + 1))) with
      | some p => max m p
      | none => m) 0 = (k : Int) := by
  induction k with
  | zero => rfl
  | succ k ih =>
    rw [List.range_succ, List.foldl_append, ih]
    show (match filePatch? (mkZipName (mkVersion (k + 1))) with
      | some p => max (k : Int) p
      | none => (k : Int)) = ((k + 1 : Nat) : Int)
    rw [filePatch?_mkZip (k + 1)]
    show max (k : Int) (Int.ofNat (k + 1)) = ((k + 1 : Nat) : Int)
    rw [max_eq_right]
    · rfl
    · show (k : Int) ≤ Int.ofNat (k + 1)
      have h1 : Int.ofNat (k + 1) = (k : Int) + 1 := rfl
      rw [h1]
      omega

/-- After k rounds on top of a matchless directory, the loop maximum is k. -/
theorem maxPatchFold_gen (files₀ : List Str) (h : files₀.filter globMatch = [])
    (k : Nat) : maxPatchFold (files₀ ++ genFiles k) = (k : Int) := by
  unfold maxPatchFold
  rw [List.filter_append, h, List.nil_append]
  have hfil : (genFiles k).filter globMatch = genFiles k := by
    rw [List.filter_eq_self]
    intro f hf
    unfold genFiles at hf
    rcases List.mem_map.1 hf with ⟨i, _, rfl⟩
    exact globMatch_mkZip (i + 1)
  rw [hfil]
  unfold genFiles
  rw [List.foldl_map]
  exact foldl_gen_max k

/-- The allocation sequence starting after k completed rounds. -/
theorem runAlloc_gen (files₀ : List Str) (h : files₀.filter globMatch = []) :
    ∀ (N k : Nat), runAlloc (files₀ ++ genFiles k) N =
      (List.range N).map (fun i => mkVersion (k + i + 1)) := by
  intro N
  induction N with
  | zero => intro k; rfl
  | succ N ih =>
    intro k
    have hv : get_next_version (files₀ ++ genFiles k) = mkVersion (k + 1) := by
      rw [get_next_version_eq, maxPatchFold_gen files₀ h k, intStr_natSucc]
      rfl
    show get_next_version (files₀ ++ genFiles k) ::
      runAlloc ((files₀ ++ genFiles k) ++ [mkZipName (get_next_version (files₀ ++ genFiles k))]) N =
      (List.range (N + 1)).map (fun i => mkVersion (k + i + 1))
    rw [hv]
    have hfiles : (files₀ ++ genFiles k) ++ [mkZipName (mkVersion (k + 1))] =
        files₀ ++ genFiles (k + 1) := by
      rw [List.append_assoc, ← genFiles_succ]
    rw [hfiles, ih (k + 1), List.range_succ_eq_map, List.map_cons, List.map_map]
    congr 1
    apply List.map_congr_left
    intro i _
    show mkVersion ((k + 1) + i + 1) = mkVersion (k + (i + 1) + 1)
    exact congrArg mkVersion (by omega)

/-- Claim C1: starting from a directory with no `<mod_name>_1.1.*.zip`
match, N allocator calls, each followed by creating the returned archive,
return exactly the versions `1.1.1`, `1.1.2`, ..., `1.1.N` — patch
components strictly increasing and contiguous by one, with the fixed seed
(patch 1) on the first call. -/
theorem alloc_sequence_contiguous (N : Nat) (files₀ : List Str)
    (h : files₀.filter globMatch = []) :
    runAlloc files₀ N = (List.range N).map (fun i => mkVersion (i + 1)) := by
  have hgen := runAlloc_gen files₀ h N 0
  have h0 : genFiles 0 = [] := rfl
  rw [h0, List.append_nil] at hgen
  rw [hgen]
  apply List.map_congr_left
  intro i _
  exact congrArg mkVersion (by omega)

/-- Witness for C1 at a concrete input: three rounds on the empty
directory yield versions `1.1.1`, `1.1.2`, `1.1.3`. -/
theorem alloc_sequence_contiguous_witness :
    (List.filter globMatch ([] : List Str) = [])
    ∧ runAlloc ([] : List Str) 3 = (List.range 3).map (fun i => mkVersion (i + 1))
    ∧ (List.range 3).map (fun i => mkVersion (i + 1)) =
        [ str "1.1.1", str "1.1.2", str "1.1.3"] :=
  ⟨rfl, alloc_sequence_contiguous 3 [] rfl, by decide⟩

/-- Claim C2 (amended): the allocator never raises (it is a total
function) and always returns `"1.1." ++ str(max + 1)` where the maximum is
taken over the parsed patch components of the matching filenames together
with the initial value 0; in particular an archive set with patches
1, 3, 5 yields `1.1.6`, not `1.1.2` or `1.1.4`. -/
theorem alloc_next_is_max_plus_one :
    (∀ files : List Str,
      get_next_version files =
        (str "1.1.") ++ intStr ((allocPatches files).foldl max 0 + 1))
    ∧ get_next_version gapDir = str "1.1.6"
    ∧ str "1.1.6" ≠ str "1.1.2"
    ∧ str "1.1.6" ≠ str "1.1.4" := by
  refine ⟨?_, by decide, by decide, by decide⟩
  intro files
  rw [get_next_version_eq]
  unfold maxPatchFold allocPatches
  rw [foldl_match_eq_filterMap]

/-- Counterexample to claim C2 as stated: Python `int` parses the signed
patch `-5`, so the directory `negPatchDir` has parsed patch components
`[-5]` whose maximum plus one is `-4`; the claim's stated answer would be
`1.1.-4`, but the code's running maximum starts at 0 and it returns
`1.1.1`. -/
theorem alloc_negative_patch_cex :
    allocPatches negPatchDir = [(-5 : Int)]
    ∧ get_next_version negPatchDir = str "1.1.1"
    ∧ (str "1.1.") ++ intStr (-5 + 1) = str "1.1.-4"
    ∧ get_next_version negPatchDir ≠ (str "1.1.") ++ intStr (-5 + 1) := by
  refine ⟨by decide, by decide, by decide, by decide⟩

/-- Replacing the `k` entry in place never disturbs lookups of other keys. -/
theorem lookupKey_map_set_ne (doc : JDoc) (k : String) (v : JVal)
    (key : String) (hk : key ≠ k) :
    lookupKey key (doc.map (fun p => if p.1 = k then (k, v) else p)) =
      lookupKey key doc := by
  induction doc with
  | nil => rfl
  | cons p ps ih =>
    rw [List.map_cons]
    by_cases hp : p.1 = k
    · rw [if_pos hp]
      show (if k = key then some v else lookupKey key (ps.map _)) = _
      rw [if_neg (fun h => hk h.symm), ih]
      show lookupKey key ps = lookupKey key (p :: ps)
      show lookupKey key ps = (if p.1 = key then some p.2 else lookupKey key ps)
      rw [if_neg (fun h => hk (h.symm.trans hp))]
    · rw [if_neg hp]
      show (if p.1 = key then some p.2 else lookupKey key (ps.map _)) = _
      show _ = (if p.1 = key then some p.2 else lookupKey key ps)
      by_cases hpk : p.1 = key
      · rw [if_pos hpk, if_pos hpk]
      · rw [if_neg hpk, if_neg hpk, ih]

/-- Replacing the `k` entry in place makes lookups of `k` find the new
value as soon as some entry carries key `k`. -/
theorem lookupKey_map_set_hit (doc : JDoc) (k : String) (v : JVal)
    (hany : doc.any (fun p => decide (p.1 = k)) = true) :
    lookupKey k (doc.map (fun p => if p.1 = k then (k, v) else p)) = some v := by
  induction doc with
  | nil => simp at hany
  | cons p ps ih =>
    rw [List.map_cons]
    by_cases hp : p.1 = k
    · rw [if_pos hp]
      show (if k = k then some v else lookupKey k (ps.map _)) = some v
      rw [if_pos rfl]
    · rw [if_neg hp]
      show (if p.1 = k then some p.2 else lookupKey k (ps.map _)) = some v
      rw [if_neg hp]
      apply ih
      rw [List.any_cons] at hany
      simpa [hp] using hany

/-- Appending a fresh `(k, v)` entry never disturbs lookups of other keys. -/
theorem lookupKey_append_ne (doc : JDoc) (k : String) (v : JVal)
    (key : String) (hk : key ≠ k) :
    lookupKey key (doc ++ [(k, v)]) = lookupKey key doc := by
  induction doc with
  | nil =>
    show (if k = key then some v else lookupKey key []) = none
    rw [if_neg (fun h => hk h.symm)]
    rfl
  | cons p ps ih =>
    show (if p.1 = key then some p.2 else lookupKey key (ps ++ [(k, v)])) = _
    show _ = (if p.1 = key then some p.2 else lookupKey key ps)
    by_cases hpk : p.1 = key
    · rw [if_pos hpk, if_pos hpk]
    · rw [if_neg hpk, if_neg hpk, ih]

/-- Appending a fresh `(k, v)` entry makes lookups of `k` find it when no
existing entry carries key `k`. -/
theorem lookupKey_append_hit (doc : JDoc) (k : String) (v : JVal)
    (hnone : doc.any (fun p => decide (p.1 = k)) = false) :
    lookupKey k (doc ++ [(k, v)]) = some v := by
  induction doc with
  | nil =>
    show (if k = k then some v else lookupKey k []) = some v
    rw [if_pos rfl]
  | cons p ps ih =>
    rw [List.any_cons] at hnone
    have hp : ¬ (p.1 = k) := by
      intro h
      simp [h] at hnone
    show (if p.1 = k then some p.2 else lookupKey k (ps ++ [(k, v)])) = some v
    rw [if_neg hp]
    apply ih
    simpa [hp] using hnone

/-- Claim C5: on a parsed manifest, the version update returns true, the
re-read `version` key equals exactly the value written, and every other
top-level key keeps its value (hence its JSON type) unchanged. -/
theorem update_preserves_fields (doc : JDoc) (v : String) :
    (update_info_version doc v).2 = true
    ∧ lookupKey "version" (update_info_version doc v).1 = some (JVal.jstr v)
    ∧ ∀ k : String, k ≠ "version" →
        lookupKey k (update_info_version doc v).1 = lookupKey k doc := by
  refine ⟨rfl, ?_, ?_⟩
  · show lookupKey "version" (dictSet doc "version" (JVal.jstr v)) = some (JVal.jstr v)
    unfold dictSet
    by_cases hany : doc.any (fun p => decide (p.1 = "version")) = true
    · rw [if_pos hany]
      exact lookupKey_map_set_hit doc "version" (JVal.jstr v) hany
    · rw [if_neg hany]
      exact lookupKey_append_hit doc "version" (JVal.jstr v)
        (Bool.not_eq_true _ ▸ (by simpa using hany))
  · intro k hk
    show lookupKey k (dictSet doc "version" (JVal.jstr v)) = lookupKey k doc
    unfold dictSet
    by_cases hany : doc.any (fun p => decide (p.1 = "version")) = true
    · rw [if_pos hany]
      exact lookupKey_map_set_ne doc "version" (JVal.jstr v) k hk
    · rw [if_neg hany]
      exact lookupKey_append_ne doc "version" (JVal.jstr v) k hk

/-- Witness for C5 on the test manifest: updating to `1.1.0005` returns
true, writes exactly that version, and leaves `author` untouched. -/
theorem update_preserves_fields_witness :
    ("author" : String) ≠ "version"
    ∧ (update_info_version sampleManifest "1.1.0005").2 = true
    ∧ lookupKey "version" (update_info_version sampleManifest "1.1.0005").1 =
        some (JVal.jstr "1.1.0005")
    ∧ lookupKey "author" (update_info_version sampleManifest "1.1.0005").1 =
        lookupKey "author" sampleManifest := by
  have h := update_preserves_fields sampleManifest "1.1.0005"
  exact ⟨by decide, h.1, h.2.1, h.2.2 "author" (by decide)⟩

/-- Claim C6: for a path under the base (nonempty relative component
list), the filter answers true exactly when some configured pattern
matches under the claim's per-pattern rule, first match deciding; it is a
total function, so it never raises on such paths. -/
theorem should_exclude_iff (rel : List Str) (pats : List Str)
    (hrel : rel ≠ []) :
    should_exclude rel pats = true ↔ ∃ p ∈ pats, ClaimMatch p rel := by
  clear hrel
  induction pats with
  | nil => simp [should_exclude]
  | cons p ps ih =>
    have hstep : should_exclude rel (p :: ps) =
        (if p.head? = some ('*' : Char) then
          (if (p.drop 1) <:+ pathName rel then true else should_exclude rel ps)
        else
          (if p <+: joinPath rel ∨ pathName rel = p then true
           else should_exclude rel ps)) := rfl
    rw [hstep]
    by_cases hstar : p.head? = some ('*' : Char)
    · rw [if_pos hstar]
      by_cases hsuf : (p.drop 1) <:+ pathName rel
      · rw [if_pos hsuf]
        constructor
        · intro _
          refine ⟨p, List.mem_cons_self p ps, ?_⟩
          unfold ClaimMatch
          rw [if_pos hstar]
          exact hsuf
        · intro _
          rfl
      · rw [if_neg hsuf, ih]
        constructor
        · rintro ⟨q, hq, hcq⟩
          exact ⟨q, List.mem_cons_of_mem p hq, hcq⟩
        · rintro ⟨q, hmem, hcq⟩
          rcases List.mem_cons.1 hmem with rfl | hmem
          · exfalso
            unfold ClaimMatch at hcq
            rw [if_pos hstar] at hcq
            exact hsuf hcq
          · exact ⟨q, hmem, hcq⟩
    · rw [if_neg hstar]
      by_cases hor : (p <+: joinPath rel ∨ pathName rel = p)
      · rw [if_pos hor]
        constructor
        · intro _
          refine ⟨p, List.mem_cons_self p ps, ?_⟩
          unfold ClaimMatch
          rw [if_neg hstar]
          exact hor
        · intro _
          rfl
      · rw [if_neg hor, ih]
        constructor
        · rintro ⟨q, hq, hcq⟩
          exact ⟨q, List.mem_cons_of_mem p hq, hcq⟩
        · rintro ⟨q, hmem, hcq⟩
          rcases List.mem_cons.1 hmem with rfl | hmem
          · exfalso
            unfold ClaimMatch at hcq
            rw [if_neg hstar] at hcq
            exact hor hcq
          · exact ⟨q, hmem, hcq⟩

/-- Witness for C6: the relative path `tests` against the patterns
`docs`, `tests`. -/
theorem should_exclude_iff_witness :
    ([ str "tests"] : List Str) ≠ []
    ∧ (should_exclude [ str "tests"] [ str "docs", str "tests"] = true ↔
        ∃ p ∈ [ str "docs", str "tests"], ClaimMatch p [ str "tests"]) :=
  ⟨by decide, should_exclude_iff [ str "tests"] [ str "docs", str "tests"] (by decide)⟩

/-- Claim C10: when the base's components are not a prefix of the path's
(no relative path exists), the embedded `should_exclude` propagates the
`ValueError` of `relative_to` for every pattern list — the error arises
before any pattern is examined. -/
theorem should_exclude_outside_base (path base : List Str)
    (pats : List Str) (h : ¬ base <+: path) :
    should_exclude_checked path base pats = Except.error subpathMsg := by
  unfold should_exclude_checked relative_to
  rw [if_neg h]

/-- Witness for C10: path `a` under base `b`. -/
theorem should_exclude_outside_base_witness :
    (¬ ([ str "b"] : List Str) <+: [ str "a"])
    ∧ should_exclude_checked [ str "a"] [ str "b"] excludePatterns =
        Except.error subpathMsg :=
  ⟨by decide,
    should_exclude_outside_base [ str "a"] [ str "b"] excludePatterns (by decide)⟩

/-- Claim C7's code_bug record: on a tree holding only `a/tests/f.lua`,
the fallback strategy copies the file (its relative path does not start
with `tests` and its basename is `f.lua`), while the bulk strategy prunes
the nested `tests` directory — the two destination trees differ. -/
theorem copy_strategies_disagree :
    fallbackCopied nestedTree excludePatterns = nestedTree
    ∧ rsyncCopied nestedTree excludePatterns = []
    ∧ fallbackCopied nestedTree excludePatterns ≠
        rsyncCopied nestedTree excludePatterns := by
  refine ⟨by decide, by decide, by decide⟩

/-- Claim C8: within one `create_archive` call both manifest updates and
the archive write are attempted whatever succeeds or fails (the trace is
the same for every outcome environment), the call returns the archive
write's own success; and once the export reached verification, the export
result and the exit code are success regardless of the archive stage. -/
theorem archive_best_effort (e : Env) :
    (create_archive e).1 = [Act.updSrcManifest, Act.updExpManifest, Act.zipWrite]
    ∧ (create_archive e).2 = e.zipOk
    ∧ (e.destResolved = true → e.destExists = true → e.srcExists = true →
        e.copyOk = true → e.verifyOk = true →
        (export_mod e).2 = true ∧ main_exit e = 0) := by
  refine ⟨rfl, rfl, ?_⟩
  intro h1 h2 h3 h4 h5
  unfold export_mod main_exit
  simp [export_mod, h1, h2, h3, h4, h5]

/-- Witness for C8: with both manifest updates and the archive write
failing, all three attempts still appear, `create_archive` reports the
archive failure, and the export still succeeds with exit code 0. -/
theorem archive_best_effort_witness :
    (create_archive envArchiveFails).1 =
        [Act.updSrcManifest, Act.updExpManifest, Act.zipWrite]
    ∧ (create_archive envArchiveFails).2 = false
    ∧ (export_mod envArchiveFails).2 = true
    ∧ main_exit envArchiveFails = 0 := by
  have h := archive_best_effort envArchiveFails
  exact ⟨h.1, h.2.1.trans rfl, (h.2.2 rfl rfl rfl rfl rfl).1, (h.2.2 rfl rfl rfl rfl rfl).2⟩

/-- Claim C9: when the resolved destination directory does not exist (or
the source directory does not exist), the export returns failure with an
empty mutation trace — nothing is removed, copied or written — and the
process exits with code 1. -/
theorem export_validation_failure (e : Env) (hres : e.destResolved = true)
    (h : e.destExists = false ∨ e.srcExists = false) :
    export_mod e = ([], false) ∧ main_exit e = 1 := by
  rcases h with h | h
  · constructor
    · unfold export_mod
      simp [hres, h]
    · unfold main_exit export_mod
      simp [hres, h]
  · cases hde : e.destExists
    · constructor
      · unfold export_mod
        simp [hres, hde]
      · unfold main_exit export_mod
        simp [hres, hde]
    · constructor
      · unfold export_mod
        simp [hres, hde, h]
      · unfold main_exit export_mod
        simp [hres, hde, h]

/-- Witness for C9: a concrete environment with a resolved but missing
destination. -/
theorem export_validation_failure_witness :
    envNoDest.destResolved = true
    ∧ (envNoDest.destExists = false ∨ envNoDest.srcExists = false)
    ∧ export_mod envNoDest = ([], false)
    ∧ main_exit envNoDest = 1 := by
  have h := export_validation_failure envNoDest rfl (Or.inl rfl)
  exact ⟨rfl, Or.inl rfl, h.1, h.2⟩
